import Mathlib

/-!
Shallow embedding of the MCPHub engine (`mcp_hub.py` together with the data
model in `model.py`): JSON values, Python-dict association lists, the hub
state, config loading, connect / discover / disconnect / reconnect, the unary
dispatcher, the approval path, and the newline-delimited streaming pipeline.
-/

/-- A JSON value as produced by `json.loads` / `yaml.safe_load`.  Python dicts
are modelled as association lists whose keys are unique and kept in insertion
order; numbers are modelled as integers (no claim involves fractions). -/
inductive Json where
  | null
  | bool (b : Bool)
  | num (n : Int)
  | str (s : String)
  | arr (elems : List Json)
  | obj (fields : List (String × Json))

/-- Lookup in a Python dict: first (hence only) binding of the key. -/
def dictGet {α : Type} : List (String × α) → String → Option α
  | [], _ => none
  | (k0, v0) :: rest, k => if k0 = k then some v0 else dictGet rest k

/-- Python dict assignment `d[k] = v`: replace the binding in place when the
key is present, append it otherwise. -/
def dictSet {α : Type} : List (String × α) → String → α → List (String × α)
  | [], k, v => [(k, v)]
  | (k0, v0) :: rest, k, v =>
      if k0 = k then (k, v) :: rest else (k0, v0) :: dictSet rest k v

/-- Python `d.pop(k, None)`: drop every binding of the key. -/
def dictPop {α : Type} (d : List (String × α)) (k : String) : List (String × α) :=
  d.filter (fun kv => kv.1 != k)

/-- Python `k in d` on a dict. -/
def hasKey (fields : List (String × Json)) (k : String) : Bool :=
  (dictGet fields k).isSome

mutual
/-- Python `repr` of a JSON value, used by `str()` on containers. -/
def pyRepr : Json → String
  | .null => "None"
  | .bool true => "True"
  | .bool false => "False"
  | .num n => toString n
  | .str s => "\x27" ++ s ++ "\x27"
  | .arr elems => "[" ++ pyReprElems elems ++ "]"
  | .obj fields => "\x7b" ++ pyReprFields fields ++ "\x7d"

/-- Comma-separated reprs of the elements of a JSON array. -/
def pyReprElems : List Json → String
  | [] => ""
  | [x] => pyRepr x
  | x :: y :: xs => pyRepr x ++ ", " ++ pyReprElems (y :: xs)

/-- Comma-separated reprs of the entries of a JSON object. -/
def pyReprFields : List (String × Json) → String
  | [] => ""
  | [(k, v)] => "\x27" ++ k ++ "\x27: " ++ pyRepr v
  | (k, v) :: kv :: kvs =>
      "\x27" ++ k ++ "\x27: " ++ pyRepr v ++ ", " ++ pyReprFields (kv :: kvs)
end

/-- Python `str()` of a JSON value: a string is itself, anything else reprs. -/
def pyStr : Json → String
  | .str s => s
  | j => pyRepr j

/-- Python truthiness of a JSON value. -/
def jTruthy : Json → Bool
  | .null => false
  | .bool b => b
  | .num n => n != 0
  | .str s => s != ""
  | .arr elems => !elems.isEmpty
  | .obj fields => !fields.isEmpty

/-- Whether a JSON value is a Python dict (`isinstance(x, dict)`). -/
def jIsObj : Json → Bool
  | .obj _ => true
  | _ => false

/-- `MCPServerConfig` from `model.py`: name, endpoint, enabled (default
true), timeout in seconds (default 30, never validated). -/
structure MCPServerConfig where
  name : String
  endpoint : String
  enabled : Bool := true
  timeout : Int := 30
deriving DecidableEq

/-- `ToolInfo` from `model.py`.  `name` holds whatever value
`func.get("name")` produced (the dataclass does not enforce `str`). -/
structure ToolInfo where
  name : Json
  server_name : String
  schema : Json

/-- Retry bookkeeping — the attempt counter and the not-before instant —
kept in `MCPHub._retry_info`; the monotonic clock is modelled by `ℚ`. -/
structure RetryInfo where
  attempt : Nat
  next : ℚ
deriving DecidableEq

/-- The mutable state of one `MCPHub` instance.  The live `httpx` clients are
abstracted to the set of upstream names currently holding one. -/
structure HubState where
  servers : List (String × MCPServerConfig)
  clients : List String
  tools : List (String × ToolInfo)
  health_status : List (String × Bool)
  request_ids : List (String × Nat)
  retry_info : List (String × RetryInfo)

/-- The empty hub produced by `MCPHub.__init__` before any config loads. -/
def hub0 : HubState :=
  { servers := [], clients := [], tools := [], health_status := [],
    request_ids := [], retry_info := [] }

/-- Storing `self.clients[name] = client` (presence only). -/
def addClient (clients : List String) (n : String) : List String :=
  if clients.contains n then clients else clients ++ [n]

/-- `self.clients.pop(name, None)`. -/
def removeClient (clients : List String) (n : String) : List String :=
  clients.filter (fun m => m != n)

/-- `MCPHub._next_id`: `self.request_ids[server_name] += 1` and return the new
value.  `none` models the `KeyError` raised when the counter is missing. -/
def nextId (st : HubState) (server_name : String) : Option (HubState × Nat) :=
  match dictGet st.request_ids server_name with
  | none => none
  | some i =>
      some ({ st with request_ids := dictSet st.request_ids server_name (i + 1) }, i + 1)

/-- `MCPHub.add_server`: store the descriptor, mark unhealthy, zero the
request-id counter. -/
def add_server (st : HubState) (config : MCPServerConfig) : HubState :=
  { st with
    servers := dictSet st.servers config.name config,
    health_status := dictSet st.health_status config.name false,
    request_ids := dictSet st.request_ids config.name 0 }

/-- One raw descriptor dict from the config document, before
`MCPServerConfig(**server)` is applied. -/
structure RawDesc where
  name : Option String
  endpoint : Option String
  enabled : Option Bool
  timeout : Option Int

/-- `MCPServerConfig(**server)`: the dataclass constructor.  It raises
(`TypeError`) iff a required field is missing; defaults fill the rest, and no
field value is validated (in particular the timeout may be non-positive). -/
def mkServerConfig (r : RawDesc) : Except String MCPServerConfig :=
  match r.name, r.endpoint with
  | some n, some e =>
      .ok { name := n, endpoint := e,
            enabled := r.enabled.getD true, timeout := r.timeout.getD 30 }
  | _, _ => .error "missing required field"

/-- The parsed config document: parse failure, the three accepted shapes, or
a scalar (which the single-descriptor fallback rejects). -/
inductive ConfigDoc where
  | badParse
  | docList (items : List RawDesc)
  | docServers (items : List RawDesc)
  | docSingle (item : RawDesc)
  | docScalar

/-- `MCPHub.load_config` after file reading and parsing: build every
descriptor (any constructor failure aborts the whole load and re-raises),
then `add_server` each one in order — a duplicate name silently overwrites
the earlier descriptor via dict assignment. -/
def load_config (st : HubState) (doc : ConfigDoc) : Except String HubState :=
  match doc with
  | .badParse => .error "parse error"
  | .docScalar => .error "invalid config document"
  | .docList items =>
      (items.mapM mkServerConfig).map (fun cs => cs.foldl add_server st)
  | .docServers items =>
      (items.mapM mkServerConfig).map (fun cs => cs.foldl add_server st)
  | .docSingle r => (mkServerConfig r).map (add_server st)

/-- Register one discovered tool (`mcp_hub.py` lines 314-327): wrap a copy of
the function object in an OpenAPI-style schema, overwrite the inner `name`
with the qualified name (the server name, a dot, and the tool name), and
store under that qualified name.  A falsy `tool_name` (or a missing one) registers nothing. -/
def registerTool (server_name : String) (acc : List (String × ToolInfo))
    (func : List (String × Json)) : List (String × ToolInfo) :=
  match dictGet func "name" with
  | none => acc
  | some tn =>
      if jTruthy tn then
        let q := server_name ++ "." ++ pyStr tn
        let schema := Json.obj
          [("type", Json.str "function"),
           ("function", Json.obj (dictSet func "name" (Json.str q)))]
        dictSet acc q { name := tn, server_name := server_name, schema := schema }
      else acc

/-- One iteration of the loop in `MCPHub._process_tool_list`: a dict with a
`function` key uses that value as the function object (a non-dict value there
makes `func.get` raise `AttributeError`, modelled by `none`); a dict with both
`name` and `parameters` is itself the function object; anything else is
skipped by `continue` / the `isinstance` guard. -/
def processOneTool (server_name : String) (acc : List (String × ToolInfo))
    (tool : Json) : Option (List (String × ToolInfo)) :=
  match tool with
  | .obj fields =>
      if hasKey fields "function" then
        match dictGet fields "function" with
        | some (.obj gs) => some (registerTool server_name acc gs)
        | some _ => none
        | none => none
      else if hasKey fields "name" && hasKey fields "parameters" then
        some (registerTool server_name acc fields)
      else some acc
  | _ => some acc

/-- `MCPHub._process_tool_list` over the tool registry (`none` models an
uncaught exception escaping the loop). -/
def process_tool_list (server_name : String) (tools : List Json)
    (acc : List (String × ToolInfo)) : Option (List (String × ToolInfo)) :=
  match tools with
  | [] => some acc
  | t :: rest =>
      match processOneTool server_name acc t with
      | none => none
      | some acc2 => process_tool_list server_name rest acc2

/-- Extraction of `result.tools` from the `initialize` response body
(`mcp_hub.py` lines 250-254). -/
def toolsFromInit (data : Json) : List Json :=
  match data with
  | .obj fields =>
      match dictGet fields "result" with
      | some (.obj rs) =>
          match dictGet rs "tools" with
          | some (.arr ts) => ts
          | _ => []
      | _ => []
  | _ => []

/-- Extraction of the tool list from a `tools/list` response body
(`mcp_hub.py` lines 283-291): a dict whose `result` is a list, a dict whose
`result.tools` is a list, or a bare list body. -/
def extractToolsList (data : Json) : List Json :=
  match data with
  | .obj fields =>
      match dictGet fields "result" with
      | some (.arr l) => l
      | some (.obj rs) =>
          match dictGet rs "tools" with
          | some (.arr ts) => ts
          | _ => []
      | _ => []
  | .arr l => l
  | _ => []

/-- `MCPHub._discover_tools`.  The init-supplied list is processed outside any
`try`, so an exception there propagates to the caller (`none`); the
`tools/list` fallback swallows every exception, including a failed POST
(`Except.error`) and a `_process_tool_list` failure. -/
def discover_tools (st : HubState) (server_name : String)
    (toolsListResp : Except String Json) (initData : Json) : Option HubState :=
  let fromInit := toolsFromInit initData
  if !fromInit.isEmpty then
    match process_tool_list server_name fromInit st.tools with
    | none => none
    | some ts => some { st with tools := ts }
  else
    some (match nextId st server_name with
      | none => st
      | some (st1, _) =>
          match toolsListResp with
          | .error _ => st1
          | .ok data =>
              match process_tool_list server_name (extractToolsList data) st1.tools with
              | none => st1
              | some ts => { st1 with tools := ts })

/-- Outcome of the `initialize` POST as seen inside `_connect_server`: the
POST or `raise_for_status` threw, `resp.json()` threw `JSONDecodeError`, or a
parsed body. -/
inductive InitResult where
  | netFail (msg : String)
  | parseFail (msg : String)
  | body (data : Json)

/-- `MCPHub._connect_server`.  A fresh client is created first; any failure
before the `self.clients[name] = client` line leaves the client map untouched
(the new client is closed, never stored) and marks the upstream unhealthy.
A body that is a dict with an `error` key raises and takes that same path.
On success the client is stored, health is set, and discovery runs; an
exception escaping discovery is caught by the same handler (the stored entry
then remains, pointing at a closed client). -/
def connect_server (st : HubState) (name : String) (_config : MCPServerConfig)
    (ir : InitResult) (toolsListResp : Except String Json) : HubState :=
  match nextId st name with
  | none => { st with health_status := dictSet st.health_status name false }
  | some (st1, _) =>
      match ir with
      | .netFail _ => { st1 with health_status := dictSet st1.health_status name false }
      | .parseFail _ => { st1 with health_status := dictSet st1.health_status name false }
      | .body data =>
          if jIsObj data && (match data with | .obj fs => hasKey fs "error" | _ => false) then
            { st1 with health_status := dictSet st1.health_status name false }
          else
            let st2 := { st1 with
              clients := addClient st1.clients name,
              health_status := dictSet st1.health_status name true }
            match discover_tools st2 name toolsListResp data with
            | some st3 => st3
            | none => { st2 with health_status := dictSet st2.health_status name false }

/-- `MCPHub._disconnect_server`: close and drop the client, mark unhealthy,
purge every owned tool entry, and drop the descriptor, request-id counter and
retry record. -/
def disconnect_server (st : HubState) (name : String) : HubState :=
  { servers := dictPop st.servers name,
    clients := removeClient st.clients name,
    tools := st.tools.filter (fun kv => kv.2.server_name != name),
    health_status := dictSet st.health_status name false,
    request_ids := dictPop st.request_ids name,
    retry_info := dictPop st.retry_info name }

/-- `MCPHub._reconnect_server`.  The backoff bookkeeping of lines 195-201
computes `attempt + 1` and `min(60, 2 ** min(attempt, 6))`, but the `except`
branch that would record them is unreachable: `_connect_server` catches every
exception internally and returns normally, so the `try` body always succeeds
and the retry record is always reset to attempt 0, next 0. -/
def reconnect_server (st : HubState) (name : String) (now : ℚ)
    (ir : InitResult) (toolsListResp : Except String Json) : HubState :=
  match dictGet st.servers name with
  | none => st
  | some cfg =>
      if !cfg.enabled then st
      else
        let info := (dictGet st.retry_info name).getD { attempt := 0, next := 0 }
        if now < info.next then st
        else
          let st2 := connect_server st name cfg ir toolsListResp
          { st2 with retry_info := dictSet st2.retry_info name { attempt := 0, next := 0 } }

/-- The `changed`-name branch of `MCPHub._reconcile_once` (lines 151-159):
disconnect, then — when the new descriptor is still enabled — replace the
descriptor directly (not via `add_server`) and reconnect. -/
def reconcile_changed (st : HubState) (n : String) (cfg : MCPServerConfig)
    (ir : InitResult) (toolsListResp : Except String Json) : HubState :=
  if !cfg.enabled then disconnect_server st n
  else
    let st1 := disconnect_server st n
    let st2 := { st1 with servers := dictSet st1.servers n cfg }
    connect_server st2 n cfg ir toolsListResp

/-- Normalized outcome of a unary dispatch: the three dict shapes returned
by `call_tool` / `approve_tool` — failure carrying the error value, pending
carrying the result dict, and success carrying the result. -/
inductive CallOutcome where
  | failure (err : Json)
  | pending (data : Json)
  | success (result : Json)

/-- Extraction of the error message from a JSON-RPC `error` value:
`error_info.get("message", str(error_info)) if isinstance(error_info, dict)
else str(error_info)`. -/
def errMsg (e : Json) : Json :=
  match e with
  | .obj fields => (dictGet fields "message").getD (.str (pyStr e))
  | _ => .str (pyStr e)

/-- `result.get("status") == "pending"` on a result value. -/
def isPendingResult : Json → Bool
  | .obj fields =>
      match dictGet fields "status" with
      | some (.str s) => s == "pending"
      | _ => false
  | _ => false

/-- `MCPHub.call_tool`.  The POST itself is abstracted into `post`: an
`Except.error` covers every exception inside the `try` (network failure,
non-2xx `raise_for_status`, both body decodes failing), an `Except.ok` is the
decoded body.  `none` models the uncaught `KeyError` from the client lookup
or `_next_id`, both of which run before the `try`. -/
def call_tool (st : HubState) (full_tool_name : String) (_arguments : Json)
    (post : Except String Json) : Option (HubState × CallOutcome) :=
  match dictGet st.tools full_tool_name with
  | none =>
      some (st, .failure (.str ("工具 " ++ full_tool_name ++ " 不存在")))
  | some tool =>
      let server_name := tool.server_name
      if !(dictGet st.health_status server_name).getD false then
        some (st, .failure (.str ("服务器 " ++ server_name ++ " 不可用")))
      else if !st.clients.contains server_name then none
      else
        match nextId st server_name with
        | none => none
        | some (st1, _) =>
            match post with
            | .error e => some (st1, .failure (.str e))
            | .ok data =>
                match data with
                | .obj fields =>
                    if hasKey fields "error" then
                      some (st1, .failure (errMsg ((dictGet fields "error").getD .null)))
                    else if hasKey fields "result" then
                      let r := (dictGet fields "result").getD .null
                      if isPendingResult r then some (st1, .pending r)
                      else some (st1, .success r)
                    else some (st1, .success data)
                | _ => some (st1, .success data)

/-- `MCPHub.approve_tool`: same guards, envelope and error handling as
`call_tool`, but the `result` branch returns success directly — there is no
`status == "pending"` re-check. -/
def approve_tool (st : HubState) (full_tool_name : String) (_arguments : Json)
    (_approval_id : String) (post : Except String Json) :
    Option (HubState × CallOutcome) :=
  match dictGet st.tools full_tool_name with
  | none =>
      some (st, .failure (.str ("工具 " ++ full_tool_name ++ " 不存在")))
  | some tool =>
      let server_name := tool.server_name
      if !(dictGet st.health_status server_name).getD false then
        some (st, .failure (.str ("服务器 " ++ server_name ++ " 不可用")))
      else if !st.clients.contains server_name then none
      else
        match nextId st server_name with
        | none => none
        | some (st1, _) =>
            match post with
            | .error e => some (st1, .failure (.str e))
            | .ok data =>
                match data with
                | .obj fields =>
                    if hasKey fields "error" then
                      some (st1, .failure (errMsg ((dictGet fields "error").getD .null)))
                    else if hasKey fields "result" then
                      some (st1, .success ((dictGet fields "result").getD .null))
                    else some (st1, .success data)
                | _ => some (st1, .success data)

/-- Python `str.split("\n")` on a string modelled as a character list:
always returns one more part than there are newline characters. -/
def splitNl : List Char → List (List Char)
  | [] => [[]]
  | c :: rest =>
      let r := splitNl rest
      if c = '\n' then [] :: r
      else (c :: r.headD []) :: r.tail

/-- Whether a character is stripped by Python `str.strip()`. -/
def isPySpace (c : Char) : Bool :=
  c = ' ' || c = '\t' || c = '\n' || c = '\r' || c = '\x0b' || c = '\x0c'

/-- Python `str.strip()`: drop whitespace from both ends. -/
def stripChars (l : List Char) : List Char :=
  ((l.dropWhile isPySpace).reverse.dropWhile isPySpace).reverse

/-- One outbound chunk of `call_tool_stream`: the serialized failure dict,
the serialized success dict, or a raw forwarded line. -/
inductive StreamChunk where
  | failure (err : Json)
  | success (result : Json)
  | raw (line : List Char)

/-- Handling of one complete line inside the chunk loop of
`MCPHub.call_tool_stream` (lines 471-492): strip; skip when empty; parse;
a dict with `error` emits a failure chunk and terminates the generator
(second component `true`); a dict with `result` emits a success chunk; any
other dict forwards the stripped line; a non-dict JSON value emits nothing
(the `isinstance` guard has no else branch); an unparseable line is forwarded
raw. -/
def processLine (parse : List Char → Option Json) (line : List Char) :
    List StreamChunk × Bool :=
  let s := stripChars line
  if s.isEmpty then ([], false)
  else
    match parse s with
    | none => ([.raw s], false)
    | some j =>
        match j with
        | .obj fields =>
            if hasKey fields "error" then
              ([.failure (errMsg ((dictGet fields "error").getD .null))], true)
            else if hasKey fields "result" then
              ([.success ((dictGet fields "result").getD .null)], false)
            else ([.raw s], false)
        | _ => ([], false)

/-- The inner `for line in lines[:-1]` loop, with the early `return` on an
error envelope. -/
def processLines (parse : List Char → Option Json) :
    List (List Char) → List StreamChunk × Bool
  | [] => ([], false)
  | l :: ls =>
      let p := processLine parse l
      if p.2 then (p.1, true)
      else
        let q := processLines parse ls
        (p.1 ++ q.1, q.2)

/-- The trailing-buffer flush after the body closes (lines 497-511): the
unstripped buffer goes through the same classification, but raw forwards and
parse failures yield the unstripped buffer. -/
def processFlush (parse : List Char → Option Json) (buffer : List Char) :
    List StreamChunk :=
  if (stripChars buffer).isEmpty then []
  else
    match parse buffer with
    | none => [.raw buffer]
    | some j =>
        match j with
        | .obj fields =>
            if hasKey fields "error" then
              [.failure (errMsg ((dictGet fields "error").getD .null))]
            else if hasKey fields "result" then
              [.success ((dictGet fields "result").getD .null)]
            else [.raw buffer]
        | _ => []

/-- The text-level part of the `async for chunk in resp.aiter_bytes()` loop
of `MCPHub.call_tool_stream`, for reads whose `chunk.decode("utf-8")` has
already succeeded: skip empty reads, append the decoded text to the buffer,
split on newlines, keep the trailing incomplete fragment as the new buffer,
process the complete lines (stopping the generator on an error envelope), and
after the last read flush the remaining buffer.  The full loop over byte
reads, including the decode step and its exception path, is
`streamLoopBytes` below. -/
def streamLoop (parse : List Char → Option Json) :
    List (List Char) → List Char → List StreamChunk
  | [], buffer => processFlush parse buffer
  | c :: cs, buffer =>
      if c.isEmpty then streamLoop parse cs buffer
      else
        let parts := splitNl (buffer ++ c)
        let p := processLines parse parts.dropLast
        if p.2 then p.1
        else p.1 ++ streamLoop parse cs (parts.getLastD [])

/-- Whole-body reference processing: split the complete body once, process
every complete line, then flush the remainder. -/
def processWhole (parse : List Char → Option Json) (body : List Char) :
    List StreamChunk :=
  let parts := splitNl body
  let p := processLines parse parts.dropLast
  if p.2 then p.1
  else p.1 ++ processFlush parse (parts.getLastD [])

/-- Strict UTF-8 decoding of one read, modelling Python
`chunk.decode("utf-8")` (a byte string as a list of byte values): `none` is
the `UnicodeDecodeError` raised on a stray continuation byte, an invalid
lead byte, an overlong form, a surrogate or out-of-range code point, or a
multibyte sequence cut off by the end of the read — the decode is per read,
with no state carried across reads. -/
def utf8Decode : List Nat → Option (List Char)
  | [] => some []
  | b :: rest =>
      if b < 0x80 then
        (utf8Decode rest).map (fun cs => Char.ofNat b :: cs)
      else if b < 0xC0 then none
      else if b < 0xE0 then
        match rest with
        | b1 :: rest2 =>
            if 0x80 ≤ b1 ∧ b1 < 0xC0 then
              let c := (b - 0xC0) * 64 + (b1 - 0x80)
              if c < 0x80 then none
              else (utf8Decode rest2).map (fun cs => Char.ofNat c :: cs)
            else none
        | [] => none
      else if b < 0xF0 then
        match rest with
        | b1 :: b2 :: rest2 =>
            if (0x80 ≤ b1 ∧ b1 < 0xC0) ∧ (0x80 ≤ b2 ∧ b2 < 0xC0) then
              let c := (b - 0xE0) * 4096 + (b1 - 0x80) * 64 + (b2 - 0x80)
              if c < 0x800 ∨ (0xD800 ≤ c ∧ c < 0xE000) then none
              else (utf8Decode rest2).map (fun cs => Char.ofNat c :: cs)
            else none
        | _ => none
      else if b < 0xF8 then
        match rest with
        | b1 :: b2 :: b3 :: rest2 =>
            if (0x80 ≤ b1 ∧ b1 < 0xC0) ∧ (0x80 ≤ b2 ∧ b2 < 0xC0) ∧
                (0x80 ≤ b3 ∧ b3 < 0xC0) then
              let c := (b - 0xF0) * 262144 + (b1 - 0x80) * 4096 +
                (b2 - 0x80) * 64 + (b3 - 0x80)
              if c < 0x10000 ∨ 0x10FFFF < c then none
              else (utf8Decode rest2).map (fun cs => Char.ofNat c :: cs)
            else none
        | _ => none
      else none

/-- The terminal chunk produced by the `except` handler wrapped around the
per-read body (`mcp_hub.py` lines 493-495): `json.dumps` of a failure dict
whose message interpolates the exception text (the library-produced
`UnicodeDecodeError` text after the colon is elided here). -/
def streamDecodeFailure : StreamChunk := .failure (.str "流式处理错误")

/-- The `async for chunk in resp.aiter_bytes()` loop of
`MCPHub.call_tool_stream` over the raw byte reads (lines 461-495): an empty
read is skipped; otherwise the read is decoded with `chunk.decode("utf-8")`
inside the `try` — a decode failure is caught at line 493, one terminal
failure chunk is yielded and the generator returns — and a decoded read is
framed and classified exactly as in `streamLoop`; after the last read the
remaining buffer is flushed. -/
def streamLoopBytes (parse : List Char → Option Json) :
    List (List Nat) → List Char → List StreamChunk
  | [], buffer => processFlush parse buffer
  | c :: cs, buffer =>
      if c.isEmpty then streamLoopBytes parse cs buffer
      else
        match utf8Decode c with
        | none => [streamDecodeFailure]
        | some text =>
            let parts := splitNl (buffer ++ text)
            let p := processLines parse parts.dropLast
            if p.2 then p.1
            else p.1 ++ streamLoopBytes parse cs (parts.getLastD [])

/-- `MCPHub.call_tool_stream`: registry and health guards yield one failure
chunk; a non-200 status yields one failure chunk; otherwise the raw byte
reads of the body are decoded, framed and classified by `streamLoopBytes`.
`none` models the uncaught `KeyError` from the client lookup or `_next_id`
(both before the `try`). -/
def call_tool_stream (st : HubState) (full_tool_name : String)
    (_arguments : Json) (parse : List Char → Option Json) (status_code : Nat)
    (reads : List (List Nat)) : Option (HubState × List StreamChunk) :=
  match dictGet st.tools full_tool_name with
  | none =>
      some (st, [.failure (.str ("工具 " ++ full_tool_name ++ " 不存在"))])
  | some tool =>
      let server_name := tool.server_name
      if !(dictGet st.health_status server_name).getD false then
        some (st, [.failure (.str ("服务器 " ++ server_name ++ " 不可用"))])
      else if !st.clients.contains server_name then none
      else
        match nextId st server_name with
        | none => none
        | some (st1, _) =>
            if status_code ≠ 200 then
              some (st1, [.failure (.str ("HTTP错误: " ++ toString status_code))])
            else some (st1, streamLoopBytes parse reads [])

/-- Projection `schema.function.name` used to state the round-trip law R1. -/
def schemaFunctionName (schema : Json) : Option Json :=
  match schema with
  | .obj fields =>
      match dictGet fields "function" with
      | some (.obj gs) => dictGet gs "name"
      | _ => none
  | _ => none

/-- Fixture: descriptor of upstream `s`. -/
def cfgS : MCPServerConfig := { name := "s", endpoint := "http://s/mcp" }

/-- Fixture: registry entry for `s.echo`. -/
def toolEcho : ToolInfo :=
  { name := Json.str "echo", server_name := "s", schema := Json.null }

/-- Fixture: a hub with upstream `s` connected, healthy and owning `s.echo`. -/
def stS : HubState :=
  { servers := [("s", cfgS)], clients := ["s"],
    tools := [("s.echo", toolEcho)],
    health_status := [("s", true)], request_ids := [("s", 4)],
    retry_info := [] }

/-- Fixture: a `tools/call` body whose result is a pending safety check. -/
def pendingBody : Json :=
  Json.obj [("result", Json.obj
    [("status", Json.str "pending"), ("level_name", Json.str "DANGEROUS")])]

/-- Fixture: an `initialize` / `tools/call` error body. -/
def errBody : Json :=
  Json.obj [("error", Json.obj [("message", Json.str "boom")])]

/-- Fixture: descriptor of upstream `a`. -/
def cfgA : MCPServerConfig := { name := "a", endpoint := "http://a/mcp" }

/-- Fixture: upstream `a` unhealthy with a nonzero retry record. -/
def stRetry : HubState :=
  { servers := [("a", cfgA)], clients := [], tools := [],
    health_status := [("a", false)], request_ids := [("a", 2)],
    retry_info := [("a", { attempt := 3, next := 5 })] }

/-- Fixture: registry entry for `a.t1`. -/
def toolA1 : ToolInfo :=
  { name := Json.str "t1", server_name := "a", schema := Json.null }

/-- Fixture: registry entry for `a.t2`. -/
def toolA2 : ToolInfo :=
  { name := Json.str "t2", server_name := "a", schema := Json.null }

/-- Fixture: descriptor of upstream `a` after the endpoint rename. -/
def cfgA2 : MCPServerConfig := { name := "a", endpoint := "http://a-new/mcp" }

/-- Fixture: a standard tool definition carrying a `function` object. -/
def toolDictT1 : Json :=
  Json.obj [("function", Json.obj
    [("name", Json.str "t1"), ("parameters", Json.obj [])])]

/-- Fixture: an `initialize` body that carries `result.tools`. -/
def goodInitBody : Json :=
  Json.obj [("result", Json.obj [("tools", Json.arr [toolDictT1])])]

/-- Fixture: a hub with upstream `a` connected and owning two tools. -/
def stConn : HubState :=
  { servers := [("a", cfgA)], clients := ["a"],
    tools := [("a.t1", toolA1), ("a.t2", toolA2)],
    health_status := [("a", true)], request_ids := [("a", 7)],
    retry_info := [] }

/-- Fixture: the text of one streaming result envelope (content arbitrary —
the parse function below assigns it a meaning). -/
def lineR1 : List Char := "RES ONE".toList

/-- Fixture: a parse function recognising exactly `lineR1`. -/
def parseW (s : List Char) : Option Json :=
  if s = lineR1 then some (Json.obj [("result", Json.num 1)]) else none

/-- Fixture: the text of one result envelope containing a non-ASCII
character (U+9519, three bytes in UTF-8). -/
def lineU : List Char := "R错".toList

/-- Fixture: a parse function recognising exactly `lineU`. -/
def parseU (s : List Char) : Option Json :=
  if s = lineU then some (Json.obj [("result", Json.num 7)]) else none

/-- Fixture: the text of a streaming line parsing to a JSON array. -/
def lineArr : List Char := "[1, 2]".toList

/-- Fixture: a parse function recognising `lineArr` as the array `[1, 2]`. -/
def parseArr (s : List Char) : Option Json :=
  if s = lineArr then some (Json.arr [Json.num 1, Json.num 2]) else none

/-- Fixture: a parse function with one other-shape object line and one
non-object line. -/
def parseC6 (s : List Char) : Option Json :=
  if s = "OTHEROBJ".toList then some (Json.obj [("jsonrpc", Json.str "2.0")])
  else if s = "42".toList then some (Json.num 42)
  else none

/-- Fixture: first raw descriptor named `a`. -/
def rdA1 : RawDesc :=
  { name := some "a", endpoint := some "http://one", enabled := none, timeout := none }

/-- Fixture: second raw descriptor named `a`, with a negative timeout. -/
def rdA2 : RawDesc :=
  { name := some "a", endpoint := some "http://two", enabled := none, timeout := some (-5) }

/-- Fixture: a raw descriptor missing `name`. -/
def rdNoName : RawDesc :=
  { name := none, endpoint := some "http://x", enabled := none, timeout := none }

/-- Fixture: a raw descriptor missing `endpoint`. -/
def rdNoEndpoint : RawDesc :=
  { name := some "x", endpoint := none, enabled := none, timeout := none }

/-- Fixture: a malformed tool-list element — a dict with `name` only. -/
def toolBad : Json := Json.obj [("name", Json.str "add")]

/-- Fixture: a well-formed tool-list element for `add`. -/
def toolGood : Json :=
  Json.obj [("function", Json.obj
    [("name", Json.str "add"), ("description", Json.str "d")])]

/-- Evaluation lemma: once the guards pass, `call_tool` on a decoded body
returns the id-bumped state together with the outcome dictated by the
response shape. -/
theorem call_tool_ok_eval
    (st : HubState) (full : String) (args : Json) (tool : ToolInfo) (i : Nat)
    (data : Json)
    (htool : dictGet st.tools full = some tool)
    (hhealth : (dictGet st.health_status tool.server_name).getD false = true)
    (hclient : st.clients.contains tool.server_name = true)
    (hid : dictGet st.request_ids tool.server_name = some i) :
    ∀ out : CallOutcome,
      (match data with
        | .obj fields =>
            if hasKey fields "error" then
              out = CallOutcome.failure (errMsg ((dictGet fields "error").getD .null))
            else if hasKey fields "result" then
              let r := (dictGet fields "result").getD .null
              if isPendingResult r then out = .pending r else out = .success r
            else out = .success data
        | _ => out = .success data) →
      call_tool st full args (.ok data) =
        some ({ st with
          request_ids := dictSet st.request_ids tool.server_name (i + 1) }, out) := by
  intro out hout
  unfold call_tool
  rw [htool]
  simp only [hhealth, hclient, Bool.not_true, if_false, Bool.false_eq_true,
    ite_false, nextId, hid]
  cases data with
  | obj fields =>
      simp only at hout
      by_cases he : hasKey fields "error" = true
      · simp only [he, if_true] at hout ⊢
        rw [hout]
      · rw [Bool.not_eq_true] at he
        simp only [he, Bool.false_eq_true, if_false] at hout ⊢
        by_cases hr : hasKey fields "result" = true
        · simp only [hr, if_true] at hout ⊢
          by_cases hp : isPendingResult ((dictGet fields "result").getD .null) = true
          · simp only [hp, if_true] at hout ⊢
            rw [hout]
          · rw [Bool.not_eq_true] at hp
            simp only [hp, Bool.false_eq_true, if_false] at hout ⊢
            rw [hout]
        · rw [Bool.not_eq_true] at hr
          simp only [hr, Bool.false_eq_true, if_false] at hout ⊢
          rw [hout]
  | null => simp only at hout; rw [hout]
  | bool b => simp only at hout; rw [hout]
  | num n => simp only at hout; rw [hout]
  | str s => simp only at hout; rw [hout]
  | arr elems => simp only at hout; rw [hout]

/-- C1: for a dispatched unary call whose POST succeeds, `call_tool` maps the
body as follows — an object with `error` (taking precedence over `result`)
yields a failure carrying `error.message` when the error is an object with a
message and the stringified error when it is not an object; otherwise an
object with `result` yields pending when `result.status == "pending"` and
success with the result otherwise; any other body yields success with the
raw body. -/
theorem c1_call_tool_response_mapping
    (st : HubState) (full : String) (args : Json) (tool : ToolInfo) (i : Nat)
    (data : Json) (st1 : HubState)
    (htool : dictGet st.tools full = some tool)
    (hhealth : (dictGet st.health_status tool.server_name).getD false = true)
    (hclient : st.clients.contains tool.server_name = true)
    (hid : dictGet st.request_ids tool.server_name = some i)
    (hst1 : st1 = { st with
      request_ids := dictSet st.request_ids tool.server_name (i + 1) }) :
    (∀ fields, data = .obj fields → hasKey fields "error" = true →
        call_tool st full args (.ok data) =
          some (st1, .failure (errMsg ((dictGet fields "error").getD .null)))) ∧
    (∀ fields e ms m, data = .obj fields → dictGet fields "error" = some e →
        e = .obj ms → dictGet ms "message" = some m →
        call_tool st full args (.ok data) = some (st1, .failure m)) ∧
    (∀ fields e, data = .obj fields → dictGet fields "error" = some e →
        jIsObj e = false →
        call_tool st full args (.ok data) = some (st1, .failure (.str (pyStr e)))) ∧
    (∀ fields r, data = .obj fields → hasKey fields "error" = false →
        dictGet fields "result" = some r → isPendingResult r = true →
        call_tool st full args (.ok data) = some (st1, .pending r)) ∧
    (∀ fields r, data = .obj fields → hasKey fields "error" = false →
        dictGet fields "result" = some r → isPendingResult r = false →
        call_tool st full args (.ok data) = some (st1, .success r)) ∧
    ((match data with
      | .obj fields => hasKey fields "error" = false ∧ hasKey fields "result" = false
      | _ => True) →
        call_tool st full args (.ok data) = some (st1, .success data)) := by
  subst hst1
  have hcall := call_tool_ok_eval st full args tool i data htool hhealth hclient hid
  refine ⟨?_, ?_, ?_, ?_, ?_, ?_⟩
  · intro fields hd he
    subst hd
    exact hcall _ (by simp [he])
  · intro fields e ms m hd he hms hm
    subst hd; subst hms
    refine hcall _ ?_
    have hk : hasKey fields "error" = true := by simp [hasKey, he]
    simp [hk, he, errMsg, hm]
  · intro fields e hd he hobj
    subst hd
    refine hcall _ ?_
    have hk : hasKey fields "error" = true := by simp [hasKey, he]
    cases e with
    | obj ms => simp [jIsObj] at hobj
    | null => simp [hk, he, errMsg]
    | bool b => simp [hk, he, errMsg]
    | num n => simp [hk, he, errMsg]
    | str s => simp [hk, he, errMsg]
    | arr elems => simp [hk, he, errMsg]
  · intro fields r hd he hr hp
    subst hd
    refine hcall _ ?_
    have hk : hasKey fields "result" = true := by simp [hasKey, hr]
    simp [he, hk, hr, hp]
  · intro fields r hd he hr hp
    subst hd
    refine hcall _ ?_
    have hk : hasKey fields "result" = true := by simp [hasKey, hr]
    simp [he, hk, hr, hp]
  · intro hshape
    refine hcall _ ?_
    cases data with
    | obj fields => simp [hshape.1, hshape.2]
    | null => simp
    | bool b => simp
    | num n => simp
    | str s => simp
    | arr elems => simp

/-- Witness for C1: on the concrete connected hub `stS`, a pending body maps
to the pending outcome with the request id bumped. -/
theorem c1_call_tool_response_mapping_witness :
    call_tool stS "s.echo" Json.null (.ok pendingBody) =
      some ({ stS with request_ids := [("s", 5)] },
        .pending (Json.obj
          [("status", Json.str "pending"), ("level_name", Json.str "DANGEROUS")])) := by
  have h := c1_call_tool_response_mapping stS "s.echo" Json.null toolEcho 4
    pendingBody ({ stS with request_ids := [("s", 5)] }) rfl rfl rfl rfl rfl
  exact h.2.2.2.1 _ _ rfl rfl rfl rfl

/-- Counterexample for C7: on the same hub, body and tool, `call_tool`
returns the pending outcome but `approve_tool` returns plain success — the
approve path does not re-check `result.status == "pending"`, so its response
handling is not identical to the unary dispatcher. -/
theorem c7_approve_not_identical_counterexample :
    call_tool stS "s.echo" Json.null (.ok pendingBody) =
      some ({ stS with request_ids := [("s", 5)] },
        .pending (Json.obj
          [("status", Json.str "pending"), ("level_name", Json.str "DANGEROUS")])) ∧
    approve_tool stS "s.echo" Json.null "abc" (.ok pendingBody) =
      some ({ stS with request_ids := [("s", 5)] },
        .success (Json.obj
          [("status", Json.str "pending"), ("level_name", Json.str "DANGEROUS")])) :=
  ⟨rfl, rfl⟩

/-- C7 amended: `approve_tool` shares the error handling of the unary dispatcher
and raw-body fallback, but a body with `result` is always returned as
success — a pending-status result, which `call_tool` would return as
pending, comes back from `approve_tool` as success; on bodies without a
pending-status result the two dispatchers agree exactly. -/
theorem c7_approve_response_mapping
    (st : HubState) (full : String) (args : Json) (aid : String)
    (tool : ToolInfo) (i : Nat) (data : Json) (st1 : HubState)
    (htool : dictGet st.tools full = some tool)
    (hhealth : (dictGet st.health_status tool.server_name).getD false = true)
    (hclient : st.clients.contains tool.server_name = true)
    (hid : dictGet st.request_ids tool.server_name = some i)
    (hst1 : st1 = { st with
      request_ids := dictSet st.request_ids tool.server_name (i + 1) }) :
    (∀ fields, data = .obj fields → hasKey fields "error" = true →
        approve_tool st full args aid (.ok data) =
          some (st1, .failure (errMsg ((dictGet fields "error").getD .null)))) ∧
    (∀ fields r, data = .obj fields → hasKey fields "error" = false →
        dictGet fields "result" = some r →
        approve_tool st full args aid (.ok data) = some (st1, .success r)) ∧
    ((match data with
      | .obj fields => hasKey fields "error" = false ∧ hasKey fields "result" = false
      | _ => True) →
        approve_tool st full args aid (.ok data) = some (st1, .success data)) ∧
    (∀ fields r, data = .obj fields → hasKey fields "error" = false →
        dictGet fields "result" = some r → isPendingResult r = true →
        approve_tool st full args aid (.ok data) = some (st1, .success r) ∧
        call_tool st full args (.ok data) = some (st1, .pending r)) ∧
    ((∀ fields r, data = .obj fields → dictGet fields "result" = some r →
        isPendingResult r = false) →
        approve_tool st full args aid (.ok data) = call_tool st full args (.ok data)) := by
  subst hst1
  have happ : ∀ out,
      (match data with
        | .obj fields =>
            if hasKey fields "error" then
              out = CallOutcome.failure (errMsg ((dictGet fields "error").getD .null))
            else if hasKey fields "result" then
              out = .success ((dictGet fields "result").getD .null)
            else out = .success data
        | _ => out = .success data) →
      approve_tool st full args aid (.ok data) =
        some ({ st with
          request_ids := dictSet st.request_ids tool.server_name (i + 1) }, out) := by
    intro out hout
    unfold approve_tool
    rw [htool]
    simp only [hhealth, hclient, Bool.not_true, Bool.false_eq_true, ite_false,
      nextId, hid]
    cases data with
    | obj fields =>
        simp only at hout
        by_cases he : hasKey fields "error" = true
        · simp only [he, if_true] at hout ⊢
          rw [hout]
        · rw [Bool.not_eq_true] at he
          simp only [he, Bool.false_eq_true, if_false] at hout ⊢
          by_cases hr : hasKey fields "result" = true
          · simp only [hr, if_true] at hout ⊢
            rw [hout]
          · rw [Bool.not_eq_true] at hr
            simp only [hr, Bool.false_eq_true, if_false] at hout ⊢
            rw [hout]
    | null => simp only at hout; rw [hout]
    | bool b => simp only at hout; rw [hout]
    | num n => simp only at hout; rw [hout]
    | str s => simp only at hout; rw [hout]
    | arr elems => simp only at hout; rw [hout]
  have hcall := call_tool_ok_eval st full args tool i data htool hhealth hclient hid
  refine ⟨?_, ?_, ?_, ?_, ?_⟩
  · intro fields hd he
    subst hd
    exact happ _ (by simp [he])
  · intro fields r hd he hr
    subst hd
    refine happ _ ?_
    have hk : hasKey fields "result" = true := by simp [hasKey, hr]
    simp [he, hk, hr]
  · intro hshape
    refine happ _ ?_
    cases data with
    | obj fields => simp [hshape.1, hshape.2]
    | null => simp
    | bool b => simp
    | num n => simp
    | str s => simp
    | arr elems => simp
  · intro fields r hd he hr hp
    subst hd
    have hk : hasKey fields "result" = true := by simp [hasKey, hr]
    refine ⟨happ _ (by simp [he, hk, hr]), hcall (.pending r) ?_⟩
    simp [he, hk, hr, hp]
  · intro hnp
    cases data with
    | obj fields =>
        by_cases he : hasKey fields "error" = true
        · rw [happ (.failure (errMsg ((dictGet fields "error").getD .null)))
            (by simp [he]),
            hcall (.failure (errMsg ((dictGet fields "error").getD .null)))
            (by simp [he])]
        · rw [Bool.not_eq_true] at he
          by_cases hr : hasKey fields "result" = true
          · obtain ⟨r, hrv⟩ := Option.isSome_iff_exists.mp hr
            have hnpr := hnp fields r rfl hrv
            rw [happ (.success r) (by simp [he, hr, hrv]),
              hcall (.success r) (by simp [he, hr, hrv, hnpr])]
          · rw [Bool.not_eq_true] at hr
            rw [happ (.success (Json.obj fields)) (by simp [he, hr]),
              hcall (.success (Json.obj fields)) (by simp [he, hr])]
    | null =>
        rw [happ (.success .null) (by simp), hcall (.success .null) (by simp)]
    | bool b =>
        rw [happ (.success (.bool b)) (by simp), hcall (.success (.bool b)) (by simp)]
    | num n =>
        rw [happ (.success (.num n)) (by simp), hcall (.success (.num n)) (by simp)]
    | str s =>
        rw [happ (.success (.str s)) (by simp), hcall (.success (.str s)) (by simp)]
    | arr elems =>
        rw [happ (.success (.arr elems)) (by simp),
          hcall (.success (.arr elems)) (by simp)]

/-- Witness for C7 amended: on the concrete hub `stS`, the approve path
returns a pending-status result as success. -/
theorem c7_approve_response_mapping_witness :
    approve_tool stS "s.echo" Json.null "abc" (.ok pendingBody) =
      some ({ stS with request_ids := [("s", 5)] },
        .success (Json.obj
          [("status", Json.str "pending"), ("level_name", Json.str "DANGEROUS")])) := by
  have h := c7_approve_response_mapping stS "s.echo" Json.null "abc" toolEcho 4
    pendingBody ({ stS with request_ids := [("s", 5)] }) rfl rfl rfl rfl rfl
  exact (h.2.2.2.1 _ _ rfl rfl rfl rfl).1

/-- A freshly written key reads back its value through the dict model. -/
theorem dictGet_dictSet_self {α : Type} (d : List (String × α)) (k : String)
    (v : α) : dictGet (dictSet d k v) k = some v := by
  induction d with
  | nil => simp [dictSet, dictGet]
  | cons kv rest ih =>
      obtain ⟨k0, v0⟩ := kv
      by_cases h : k0 = k
      · simp [dictSet, h, dictGet]
      · simp [dictSet, h, dictGet, ih]

/-- Every binding of an updated dict is an old binding or the new one. -/
theorem mem_dictSet {α : Type} (d : List (String × α)) (k : String) (v : α)
    (p : String × α) (hp : p ∈ dictSet d k v) : p ∈ d ∨ p = (k, v) := by
  induction d with
  | nil => simp [dictSet] at hp; simp [hp]
  | cons kv rest ih =>
      by_cases h : kv.1 = k
      · rw [show kv = (kv.1, kv.2) from rfl] at hp
        simp only [dictSet, h, if_true] at hp
        rcases List.mem_cons.mp hp with h1 | h1
        · right; exact h1
        · left; exact List.mem_cons_of_mem _ h1
      · rw [show kv = (kv.1, kv.2) from rfl] at hp
        simp only [dictSet, h, if_false] at hp
        rcases List.mem_cons.mp hp with h1 | h1
        · left; rw [h1]; exact List.mem_cons_self _ _
        · rcases ih h1 with h2 | h2
          · left; exact List.mem_cons_of_mem _ h2
          · right; exact h2

/-- C9: when the `initialize` body is an object carrying an `error` key, the
connect attempt fails atomically — the upstream is marked unhealthy, the
freshly created client is not stored (the client map is untouched), and no
tool entry is registered (the registry is untouched). -/
theorem c9_connect_error_atomic
    (st : HubState) (name : String) (cfg : MCPServerConfig) (i : Nat)
    (fields : List (String × Json)) (toolsListResp : Except String Json)
    (stR : HubState)
    (hid : dictGet st.request_ids name = some i)
    (he : hasKey fields "error" = true)
    (hstR : stR = connect_server st name cfg (.body (.obj fields)) toolsListResp) :
    dictGet stR.health_status name = some false ∧
    stR.clients = st.clients ∧
    stR.tools = st.tools := by
  subst hstR
  unfold connect_server
  simp only [nextId, hid, jIsObj, he, Bool.and_self, if_true]
  simp [dictGet_dictSet_self]

/-- Witness for C9: a concrete error body against the connected hub `stS`
leaves clients and tools untouched and marks `s` unhealthy. -/
theorem c9_connect_error_atomic_witness :
    dictGet (connect_server stS "s" cfgS (.body errBody) (.error "x")).health_status
      "s" = some false ∧
    (connect_server stS "s" cfgS (.body errBody) (.error "x")).clients = stS.clients ∧
    (connect_server stS "s" cfgS (.body errBody) (.error "x")).tools = stS.tools := by
  exact c9_connect_error_atomic stS "s" cfgS 4
    [("error", Json.obj [("message", Json.str "boom")])] (.error "x") _ rfl rfl rfl

/-- Counterexample for C5: a config list with two descriptors both named `a`
is not rejected — the load succeeds and the later entry (with its negative
timeout, also accepted) has overwritten the earlier one. -/
theorem c5_duplicate_name_counterexample :
    load_config hub0 (.docList [rdA1, rdA2]) = .ok
      { servers := [("a",
          { name := "a", endpoint := "http://two", enabled := true, timeout := -5 })],
        clients := [], tools := [],
        health_status := [("a", false)],
        request_ids := [("a", 0)],
        retry_info := [] } := rfl

/-- C5 amended: the loader fails on a parse error and on a descriptor
missing `name` or `endpoint`, but two descriptors with the same name are
accepted — the later entry overwrites the earlier one in the server map —
and a non-positive timeout is accepted unchecked. -/
theorem c5_load_config_amended :
    (∀ st, load_config st .badParse = .error "parse error") ∧
    (∀ st r, r.name = none →
        load_config st (.docSingle r) = .error "missing required field") ∧
    (∀ st r, r.endpoint = none →
        load_config st (.docSingle r) = .error "missing required field") ∧
    (∀ st r1 r2 c1 c2, mkServerConfig r1 = .ok c1 → mkServerConfig r2 = .ok c2 →
        load_config st (.docList [r1, r2]) = .ok (add_server (add_server st c1) c2)) ∧
    (∀ st c1 c2, c2.name = c1.name →
        dictGet (add_server (add_server st c1) c2).servers c1.name = some c2) ∧
    (∀ r n e, r.name = some n → r.endpoint = some e →
        mkServerConfig r = .ok { name := n, endpoint := e,
                                 enabled := r.enabled.getD true,
                                 timeout := r.timeout.getD 30 }) := by
  refine ⟨fun st => rfl, ?_, ?_, ?_, ?_, ?_⟩
  · intro st r h
    simp [load_config, mkServerConfig, h, Except.map]
  · intro st r h
    cases hn : r.name <;> simp [load_config, mkServerConfig, h, hn, Except.map]
  · intro st r1 r2 c1 c2 h1 h2
    simp [load_config, List.mapM, List.mapM.loop, h1, h2, Except.map,
      Bind.bind, Except.bind, Pure.pure, Except.pure]
  · intro st c1 c2 h
    simp [add_server, h, dictGet_dictSet_self]
  · intro r n e h1 h2
    simp [mkServerConfig, h1, h2]

/-- Witness for C5 amended: the concrete failure and overwrite cases. -/
theorem c5_load_config_amended_witness :
    load_config hub0 (.docSingle rdNoName) = .error "missing required field" ∧
    load_config hub0 (.docSingle rdNoEndpoint) = .error "missing required field" ∧
    load_config hub0 (.docList [rdA1, rdA2]) = .ok (add_server (add_server hub0
      { name := "a", endpoint := "http://one", enabled := true, timeout := 30 })
      { name := "a", endpoint := "http://two", enabled := true, timeout := -5 }) ∧
    dictGet (add_server (add_server hub0
      { name := "a", endpoint := "http://one", enabled := true, timeout := 30 })
      { name := "a", endpoint := "http://two", enabled := true, timeout := -5 }).servers
      "a" = some { name := "a", endpoint := "http://two", enabled := true, timeout := -5 } := by
  refine ⟨c5_load_config_amended.2.1 hub0 rdNoName rfl,
    c5_load_config_amended.2.2.1 hub0 rdNoEndpoint rfl,
    c5_load_config_amended.2.2.2.1 hub0 rdA1 rdA2 _ _ rfl rfl,
    c5_load_config_amended.2.2.2.2.1 hub0 _ _ rfl⟩

/-- C3 (code bug): after a reconnect attempt whose connect fails — the
`initialize` body is an error so the upstream stays unhealthy — the retry
record is nevertheless reset to attempt 0, next 0 instead of advancing to
attempt 4, next now + 16: `_connect_server` swallows its own
exceptions, so `_reconnect_server` always takes the success path and the
exponential backoff never engages. -/
theorem c3_failed_reconnect_resets_backoff :
    dictGet (reconnect_server stRetry "a" 10 (.body errBody) (.error "x")).retry_info
      "a" = some { attempt := 0, next := 0 } ∧
    dictGet (reconnect_server stRetry "a" 10 (.body errBody) (.error "x")).health_status
      "a" = some false := ⟨rfl, rfl⟩

/-- C4 (code bug): a reconciliation tick that sees a changed endpoint for the
still-enabled upstream `a` disconnects it — which pops its request-id
counter — and then reconnects without re-creating that counter, so
`_next_id` raises `KeyError` inside `_connect_server` and the connect
always fails: even though the upstream would have answered `initialize` with
its tool list, after the tick no `a.*` tool is registered, `a` is unhealthy
and clientless, and a later reconnect tick fails the same way instead of
converging. -/
theorem c4_changed_endpoint_never_reconnects :
    (reconcile_changed stConn "a" cfgA2 (.body goodInitBody) (.ok goodInitBody)).tools
      = [] ∧
    dictGet (reconcile_changed stConn "a" cfgA2
      (.body goodInitBody) (.ok goodInitBody)).health_status "a" = some false ∧
    (reconcile_changed stConn "a" cfgA2 (.body goodInitBody) (.ok goodInitBody)).clients
      = [] ∧
    dictGet (reconcile_changed stConn "a" cfgA2
      (.body goodInitBody) (.ok goodInitBody)).servers "a" = some cfgA2 ∧
    dictGet (reconnect_server
      (reconcile_changed stConn "a" cfgA2 (.body goodInitBody) (.ok goodInitBody))
      "a" 600 (.body goodInitBody) (.ok goodInitBody)).health_status "a"
      = some false ∧
    (reconnect_server
      (reconcile_changed stConn "a" cfgA2 (.body goodInitBody) (.ok goodInitBody))
      "a" 600 (.body goodInitBody) (.ok goodInitBody)).tools = [] :=
  ⟨rfl, rfl, rfl, rfl, rfl, rfl⟩

/-- Every entry present after `registerTool` is an old entry or the freshly
wrapped one, whose published schema carries the qualified name both as its
registry key and as `schema.function.name`. -/
theorem registerTool_mem (server_name : String) (acc : List (String × ToolInfo))
    (gs : List (String × Json)) (q : String) (info : ToolInfo)
    (hm : (q, info) ∈ registerTool server_name acc gs) :
    (q, info) ∈ acc ∨
      ∃ f, info.schema = Json.obj
          [("type", Json.str "function"), ("function", Json.obj f)] ∧
        dictGet f "name" = some (Json.str q) ∧
        schemaFunctionName info.schema = some (Json.str q) := by
  unfold registerTool at hm
  cases hn : dictGet gs "name" with
  | none => rw [hn] at hm; exact Or.inl hm
  | some tn =>
      rw [hn] at hm
      by_cases ht : jTruthy tn = true
      · simp only [ht, if_true] at hm
        rcases mem_dictSet _ _ _ _ hm with h | h
        · exact Or.inl h
        · right
          injection h with hq hinfo
          subst hq
          subst hinfo
          refine ⟨dictSet gs "name" (Json.str (server_name ++ "." ++ pyStr tn)),
            rfl, dictGet_dictSet_self _ _ _, ?_⟩
          simp [schemaFunctionName, dictGet, dictGet_dictSet_self]
      · rw [Bool.not_eq_true] at ht
        simp only [ht, Bool.false_eq_true, if_false] at hm
        exact Or.inl hm

/-- Every entry present after one `_process_tool_list` iteration is an old
entry or a freshly wrapped one satisfying the round-trip law. -/
theorem processOneTool_mem (server_name : String) (acc accMid : List (String × ToolInfo))
    (t : Json) (q : String) (info : ToolInfo)
    (hstep : processOneTool server_name acc t = some accMid)
    (hm : (q, info) ∈ accMid) :
    (q, info) ∈ acc ∨
      ∃ f, info.schema = Json.obj
          [("type", Json.str "function"), ("function", Json.obj f)] ∧
        dictGet f "name" = some (Json.str q) ∧
        schemaFunctionName info.schema = some (Json.str q) := by
  cases t with
  | obj fields =>
      unfold processOneTool at hstep
      by_cases hf : hasKey fields "function" = true
      · simp only [hf, if_true] at hstep
        cases hg : dictGet fields "function" with
        | none => rw [hg] at hstep; exact absurd hstep (by simp)
        | some g =>
            rw [hg] at hstep
            cases g with
            | obj gs =>
                simp only [Option.some.injEq] at hstep
                exact registerTool_mem server_name acc gs q info (hstep ▸ hm)
            | null => exact absurd hstep (by simp)
            | bool b => exact absurd hstep (by simp)
            | num n => exact absurd hstep (by simp)
            | str s => exact absurd hstep (by simp)
            | arr elems => exact absurd hstep (by simp)
      · rw [Bool.not_eq_true] at hf
        simp only [hf, Bool.false_eq_true, if_false] at hstep
        by_cases hnp : (hasKey fields "name" && hasKey fields "parameters") = true
        · simp only [hnp, if_true, Option.some.injEq] at hstep
          exact registerTool_mem server_name acc fields q info (hstep ▸ hm)
        · rw [Bool.not_eq_true] at hnp
          simp only [hnp, Bool.false_eq_true, if_false, Option.some.injEq] at hstep
          exact Or.inl (hstep ▸ hm)
  | null => unfold processOneTool at hstep; exact Or.inl ((Option.some.injEq .. ▸ hstep) ▸ hm)
  | bool b => unfold processOneTool at hstep; exact Or.inl ((Option.some.injEq .. ▸ hstep) ▸ hm)
  | num n => unfold processOneTool at hstep; exact Or.inl ((Option.some.injEq .. ▸ hstep) ▸ hm)
  | str s => unfold processOneTool at hstep; exact Or.inl ((Option.some.injEq .. ▸ hstep) ▸ hm)
  | arr elems => unfold processOneTool at hstep; exact Or.inl ((Option.some.injEq .. ▸ hstep) ▸ hm)

/-- C8: every tool entry registered during discovery is stored under the
qualified name (server dot tool) with the original function object of the
upstream wrapped in a dict of a `type` key and a `function` key, the inner
`name` of which was overwritten
with the qualified name, so `schema.function.name` reads back exactly the
registry key (round-trip law R1). -/
theorem c8_published_schema_roundtrip
    (server_name : String) (ts : List Json) (acc acc2 : List (String × ToolInfo))
    (hp : process_tool_list server_name ts acc = some acc2) :
    ∀ q info, (q, info) ∈ acc2 → (q, info) ∈ acc ∨
      ∃ f, info.schema = Json.obj
          [("type", Json.str "function"), ("function", Json.obj f)] ∧
        dictGet f "name" = some (Json.str q) ∧
        schemaFunctionName info.schema = some (Json.str q) := by
  induction ts generalizing acc with
  | nil =>
      intro q info hm
      unfold process_tool_list at hp
      simp only [Option.some.injEq] at hp
      exact Or.inl (hp ▸ hm)
  | cons t rest ih =>
      intro q info hm
      unfold process_tool_list at hp
      cases hstep : processOneTool server_name acc t with
      | none => rw [hstep] at hp; exact absurd hp (by simp)
      | some accMid =>
          rw [hstep] at hp
          rcases ih accMid hp q info hm with h | h
          · exact processOneTool_mem server_name acc accMid t q info hstep h
          · exact Or.inr h

/-- Witness for C8: processing the single well-formed tool `toolGood` for
upstream `local` registers `local.add` whose schema satisfies R1. -/
theorem c8_published_schema_roundtrip_witness :
    process_tool_list "local" [toolGood] [] = some [("local.add",
      { name := Json.str "add", server_name := "local",
        schema := Json.obj [("type", Json.str "function"),
          ("function", Json.obj [("name", Json.str "local.add"),
            ("description", Json.str "d")])] })] ∧
    (("local.add",
      ({ name := Json.str "add", server_name := "local",
         schema := Json.obj [("type", Json.str "function"),
           ("function", Json.obj [("name", Json.str "local.add"),
             ("description", Json.str "d")])] } : ToolInfo)) ∈
      ([] : List (String × ToolInfo)) ∨
      ∃ f, (Json.obj [("type", Json.str "function"),
          ("function", Json.obj [("name", Json.str "local.add"),
            ("description", Json.str "d")])]) = Json.obj
          [("type", Json.str "function"), ("function", Json.obj f)] ∧
        dictGet f "name" = some (Json.str "local.add") ∧
        schemaFunctionName (Json.obj [("type", Json.str "function"),
          ("function", Json.obj [("name", Json.str "local.add"),
            ("description", Json.str "d")])]) = some (Json.str "local.add")) := by
  refine ⟨rfl, ?_⟩
  exact c8_published_schema_roundtrip "local" [toolGood] [] _ rfl _ _
    (List.mem_singleton.mpr rfl)

/-- C10: a tool-list element that is a dict with neither a `function` key nor
both `name` and `parameters`, or that is not a dict at all, is silently
skipped — processing the list with the element equals processing the list
without it, and the remaining tools are registered normally. -/
theorem c10_malformed_tool_skipped
    (server_name : String) (acc : List (String × ToolInfo))
    (xs ys : List Json) (e : Json)
    (he : match e with
      | .obj fields => hasKey fields "function" = false ∧
          (hasKey fields "name" && hasKey fields "parameters") = false
      | _ => True) :
    process_tool_list server_name (xs ++ e :: ys) acc =
      process_tool_list server_name (xs ++ ys) acc := by
  have hskip : ∀ acc2, processOneTool server_name acc2 e = some acc2 := by
    intro acc2
    cases e with
    | obj fields =>
        simp only at he
        simp [processOneTool, he.1, he.2]
    | null => rfl
    | bool b => rfl
    | num n => rfl
    | str s => rfl
    | arr elems => rfl
  induction xs generalizing acc with
  | nil =>
      rw [List.nil_append, List.nil_append]
      simp only [process_tool_list, hskip acc]
  | cons x rest ih =>
      rw [List.cons_append, List.cons_append]
      unfold process_tool_list
      cases hx : processOneTool server_name acc x with
      | none => rfl
      | some accMid => exact ih accMid

/-- Witness for C10: the element `toolBad`, a dict with a name only (no `parameters`, no
`function`) is skipped and `toolGood` is still processed. -/
theorem c10_malformed_tool_skipped_witness :
    process_tool_list "local" [toolGood, toolBad] [] =
      process_tool_list "local" [toolGood] [] := by
  have h := c10_malformed_tool_skipped "local" [] [toolGood] [] toolBad ⟨rfl, rfl⟩
  simpa using h

/-- `splitNl` never returns the empty list (Python `split` returns at least
one part). -/
theorem splitNl_ne_nil (l : List Char) : splitNl l ≠ [] := by
  cases l with
  | nil => simp [splitNl]
  | cons c rest =>
      simp only [splitNl]
      split <;> simp

/-- The default value of `getLastD` is irrelevant on a nonempty list. -/
theorem getLastD_irrel {α : Type} (l : List α) (d e : α) (h : l ≠ []) :
    l.getLastD d = l.getLastD e := by
  cases l with
  | nil => exact absurd rfl h
  | cons a rest => rw [List.getLastD_cons, List.getLastD_cons]

/-- A string without newlines splits into itself alone. -/
theorem splitNl_no_newline (l : List Char) (h : '\n' ∉ l) : splitNl l = [l] := by
  induction l with
  | nil => rfl
  | cons c rest ih =>
      have hc : ¬(c = '\n') := fun e => h (e ▸ List.mem_cons_self ..)
      have hr : '\n' ∉ rest := fun hm => h (List.mem_cons_of_mem _ hm)
      simp [splitNl, hc, ih hr]

/-- Splitting a newline-terminated first line peels it off. -/
theorem splitNl_line (l rest : List Char) (h : '\n' ∉ l) :
    splitNl (l ++ '\n' :: rest) = l :: splitNl rest := by
  induction l with
  | nil => simp [splitNl]
  | cons c l ih =>
      have hc : ¬(c = '\n') := fun e => h (e ▸ List.mem_cons_self ..)
      have hl : '\n' ∉ l := fun hm => h (List.mem_cons_of_mem _ hm)
      simp [splitNl, hc, ih hl]

/-- The trailing fragment produced by `splitNl` holds no newline. -/
theorem splitNl_getLastD_no_newline (l : List Char) :
    '\n' ∉ (splitNl l).getLastD [] := by
  induction l with
  | nil => simp [splitNl]
  | cons c rest ih =>
      by_cases hc : c = '\n'
      · subst hc
        have h1 : splitNl ('\n' :: rest) = [] :: splitNl rest := by
          simp [splitNl]
        rw [h1, List.getLastD_cons]
        exact ih
      · obtain ⟨r0, rt, hr⟩ := List.exists_cons_of_ne_nil (splitNl_ne_nil rest)
        have h1 : splitNl (c :: rest) = (c :: r0) :: rt := by
          simp [splitNl, hc, hr]
        rw [h1, List.getLastD_cons]
        cases rt with
        | nil =>
            rw [List.getLastD_nil]
            rw [hr, List.getLastD_cons, List.getLastD_nil] at ih
            intro hm
            rcases List.mem_cons.mp hm with h2 | h2
            · exact hc h2.symm
            · exact ih h2
        | cons r1 rs =>
            rw [getLastD_irrel (r1 :: rs) (c :: r0) r0 (by simp)]
            rw [hr, List.getLastD_cons] at ih
            exact ih

/-- Splitting a concatenation: the parts of the prefix minus its trailing
fragment, then the split of that fragment glued onto the suffix. -/
theorem splitNl_append (a b : List Char) :
    splitNl (a ++ b) =
      (splitNl a).dropLast ++ splitNl ((splitNl a).getLastD [] ++ b) := by
  induction a with
  | nil => simp [splitNl]
  | cons c a ih =>
      obtain ⟨s0, ss, hs⟩ := List.exists_cons_of_ne_nil (splitNl_ne_nil a)
      by_cases hc : c = '\n'
      · subst hc
        have h1 : splitNl (('\n' :: a) ++ b) = [] :: splitNl (a ++ b) := by
          rw [List.cons_append]
          simp [splitNl]
        have h2 : splitNl ('\n' :: a) = [] :: splitNl a := by simp [splitNl]
        rw [h1, h2, ih, hs]
        conv_rhs => rw [List.getLastD_cons]
        rw [List.dropLast_cons_of_ne_nil (List.cons_ne_nil s0 ss),
          List.cons_append]
      · obtain ⟨t0, ts, ht⟩ :=
          List.exists_cons_of_ne_nil (splitNl_ne_nil (a ++ b))
        have h1 : splitNl ((c :: a) ++ b) = (c :: t0) :: ts := by
          rw [List.cons_append]
          simp [splitNl, hc, ht]
        have h2 : splitNl (c :: a) = (c :: s0) :: ss := by
          simp [splitNl, hc, hs]
        rw [h1, h2]
        cases ss with
        | nil =>
            rw [hs] at ih
            simp only [List.dropLast_single, List.nil_append,
              List.getLastD_cons, List.getLastD_nil] at ih
            have h4 : splitNl (s0 ++ b) = t0 :: ts := ih.symm.trans ht
            simp only [List.dropLast_single, List.nil_append,
              List.getLastD_cons, List.getLastD_nil]
            rw [List.cons_append]
            simp [splitNl, hc, h4]
        | cons s1 rest =>
            rw [hs] at ih
            rw [List.dropLast_cons₂, List.cons_append, List.getLastD_cons] at ih
            have h6 := ht.symm.trans ih
            injection h6 with e1 e2
            rw [List.dropLast_cons₂, List.cons_append]
            conv_rhs => rw [List.getLastD_cons]
            rw [getLastD_irrel (s1 :: rest) (c :: s0) s0 (List.cons_ne_nil s1 rest)]
            rw [e1, e2]

/-- The line loop distributes over concatenation, respecting the early
return on an error envelope. -/
theorem processLines_append (parse : List Char → Option Json)
    (xs ys : List (List Char)) :
    processLines parse (xs ++ ys) =
      if (processLines parse xs).2 then processLines parse xs
      else ((processLines parse xs).1 ++ (processLines parse ys).1,
        (processLines parse ys).2) := by
  induction xs with
  | nil => simp [processLines]
  | cons l xs ih =>
      rw [List.cons_append]
      simp only [processLines]
      by_cases hp : (processLine parse l).2 = true
      · simp [hp]
      · rw [Bool.not_eq_true] at hp
        simp only [hp, Bool.false_eq_true, if_false, ih]
        by_cases hq : (processLines parse xs).2 = true
        · simp [hq]
        · rw [Bool.not_eq_true] at hq
          simp [hq, List.append_assoc]

/-- `getLastD` of a concatenation with a nonempty suffix reads the suffix. -/
theorem getLastD_append_right {α : Type} (x y : List α) (d : α) (h : y ≠ []) :
    (x ++ y).getLastD d = y.getLastD d := by
  induction x with
  | nil => rfl
  | cons a x ih =>
      rw [List.cons_append, List.getLastD_cons,
        getLastD_irrel (x ++ y) a d (fun hxy => h (List.append_eq_nil.mp hxy).2),
        ih]

/-- The chunked stream loop computes the same chunk sequence as processing
the whole reassembled body at once: the framer is invariant under how the
byte stream is split across reads. -/
theorem streamLoop_eq_processWhole (parse : List Char → Option Json)
    (cs : List (List Char)) (buffer : List Char) (hb : '\n' ∉ buffer) :
    streamLoop parse cs buffer = processWhole parse (buffer ++ cs.flatten) := by
  induction cs generalizing buffer with
  | nil =>
      rw [List.flatten_nil, List.append_nil]
      simp only [streamLoop, processWhole, splitNl_no_newline buffer hb,
        List.dropLast_single, processLines, Bool.false_eq_true, if_false,
        List.nil_append, List.getLastD_cons, List.getLastD_nil]
  | cons c cs ih =>
      by_cases hc : c.isEmpty = true
      · rw [List.isEmpty_iff] at hc
        subst hc
        simp only [streamLoop, List.isEmpty_nil, if_true, ih buffer hb,
          List.flatten_cons, List.nil_append]
      · rw [Bool.not_eq_true] at hc
        have hih := ih ((splitNl (buffer ++ c)).getLastD [])
          (splitNl_getLastD_no_newline _)
        have hS : splitNl ((splitNl (buffer ++ c)).getLastD [] ++ cs.flatten) ≠ [] :=
          splitNl_ne_nil _
        rw [List.flatten_cons, ← List.append_assoc]
        simp only [streamLoop, hc, Bool.false_eq_true, if_false, processWhole]
        rw [splitNl_append (buffer ++ c) cs.flatten,
          List.dropLast_append_of_ne_nil _ hS,
          getLastD_append_right _ _ _ hS,
          processLines_append, hih]
        simp only [processWhole]
        by_cases hp : (processLines parse (splitNl (buffer ++ c)).dropLast).2 = true
        · simp [hp]
        · rw [Bool.not_eq_true] at hp
          by_cases hq : (processLines parse
              (splitNl ((splitNl (buffer ++ c)).getLastD [] ++ cs.flatten)).dropLast).2 = true
          · simp only [List.getLastD_eq_getLast?] at hq
            simp [hp, hq]
          · rw [Bool.not_eq_true] at hq
            simp only [List.getLastD_eq_getLast?] at hq
            simp [hp, hq, List.append_assoc]

/-- A complete line that parses to a result envelope (no `error` key) emits
exactly one success chunk and does not terminate the stream. -/
theorem processLine_result (parse : List Char → Option Json) (l : List Char)
    (fs : List (String × Json)) (r : Json)
    (hs : stripChars l = l) (hne : l ≠ [])
    (hp : parse l = some (.obj fs))
    (he : hasKey fs "error" = false)
    (hr : dictGet fs "result" = some r) :
    processLine parse l = ([.success r], false) := by
  have hie : l.isEmpty = false := by
    cases l with
    | nil => exact absurd rfl hne
    | cons a t => rfl
  have hk : hasKey fs "result" = true := by simp [hasKey, hr]
  simp [processLine, hs, hie, hp, he, hk, hr]

/-- A run of result-envelope lines emits their success chunks in order with
no termination. -/
theorem processLines_results (parse : List Char → Option Json)
    (envs : List (List Char × Json))
    (h : ∀ p ∈ envs, stripChars p.1 = p.1 ∧ p.1 ≠ [] ∧
        ∃ fs, parse p.1 = some (.obj fs) ∧ hasKey fs "error" = false ∧
          dictGet fs "result" = some p.2) :
    processLines parse (envs.map (fun p => p.1)) =
      (envs.map (fun p => StreamChunk.success p.2), false) := by
  induction envs with
  | nil => rfl
  | cons p ps ih =>
      obtain ⟨hs, hne, fs, hp, he, hr⟩ := h p (List.mem_cons_self ..)
      have hline := processLine_result parse p.1 fs p.2 hs hne hp he hr
      have hih := ih (fun q hq => h q (List.mem_cons_of_mem _ hq))
      simp [processLines, hline, hih]

/-- Splitting a body made of newline-terminated lines recovers the lines
plus an empty trailing fragment. -/
theorem splitNl_terminated (ls : List (List Char)) (h : ∀ l ∈ ls, '\n' ∉ l) :
    splitNl ((ls.map (fun l => l ++ ['\n'])).flatten) = ls ++ [[]] := by
  induction ls with
  | nil => rfl
  | cons l ls ih =>
      rw [List.map_cons, List.flatten_cons, List.append_assoc,
        List.singleton_append,
        splitNl_line l _ (h l (List.mem_cons_self ..)),
        ih (fun x hx => h x (List.mem_cons_of_mem _ hx)),
        List.cons_append]

/-- When every read decodes, the byte-level loop agrees with the text-level
loop on the decoded reads: the decode step is transparent exactly on reads
whose boundaries respect character boundaries. -/
theorem streamLoopBytes_decoded (parse : List Char → Option Json)
    (reads : List (List Nat)) (texts : List (List Char))
    (h : List.Forall₂ (fun r t => utf8Decode r = some t) reads texts) :
    ∀ buffer : List Char, '\n' ∉ buffer →
      streamLoopBytes parse reads buffer = streamLoop parse texts buffer := by
  induction h with
  | nil => intro buffer hb; rfl
  | @cons r t rs ts hrt htail ih =>
      intro buffer hb
      by_cases hre : r.isEmpty = true
      · rw [List.isEmpty_iff] at hre
        subst hre
        have ht : ([] : List Char) = t := Option.some.inj hrt
        rw [← ht]
        simp only [streamLoopBytes, streamLoop, List.isEmpty_nil, if_true]
        exact ih buffer hb
      · rw [Bool.not_eq_true] at hre
        simp only [streamLoopBytes, hre, Bool.false_eq_true, if_false, hrt]
        by_cases hte : t.isEmpty = true
        · rw [List.isEmpty_iff] at hte
          subst hte
          rw [List.append_nil, splitNl_no_newline buffer hb]
          simp only [streamLoop, List.isEmpty_nil, if_true,
            List.dropLast_single, processLines, Bool.false_eq_true, if_false,
            List.nil_append, List.getLastD_cons, List.getLastD_nil]
          exact ih buffer hb
        · rw [Bool.not_eq_true] at hte
          simp only [streamLoop, hte, Bool.false_eq_true, if_false]
          have hb2 : '\n' ∉ (splitNl (buffer ++ t)).getLastD [] :=
            splitNl_getLastD_no_newline _
          by_cases hp : (processLines parse (splitNl (buffer ++ t)).dropLast).2 = true
          · simp [hp]
          · rw [Bool.not_eq_true] at hp
            simp only [hp, Bool.false_eq_true, if_false]
            rw [ih _ hb2]

/-- Counterexample for C2: the same single-envelope body gives one success
chunk when the reads respect character boundaries, but splitting the byte
stream inside the three-byte character U+9519 makes the per-read strict
decode raise — the handler emits a single terminal failure chunk and the
success chunk is lost, so the outcome is not independent of how the byte
stream is split across reads. -/
theorem c2_byte_split_counterexample :
    call_tool_stream stS "s.echo" Json.null parseU 200
      [[0x52, 0xE9, 0x94, 0x99, 0x0A]] =
      some ({ stS with request_ids := [("s", 5)] },
        [StreamChunk.success (Json.num 7)]) ∧
    call_tool_stream stS "s.echo" Json.null parseU 200
      [[0x52, 0xE9], [0x94, 0x99, 0x0A]] =
      some ({ stS with request_ids := [("s", 5)] }, [streamDecodeFailure]) ∧
    [streamDecodeFailure] ≠ [StreamChunk.success (Json.num 7)] :=
  ⟨rfl, rfl, by simp [streamDecodeFailure]⟩

/-- C2 amended: a streaming call whose upstream body consists of
newline-delimited result envelopes, split across reads in any way whose
read boundaries respect UTF-8 character boundaries (every read decodes),
emits exactly one success chunk per envelope, in upstream order, with no
terminal failure chunk — one envelope split across three such reads still
produces exactly one chunk, because the framer buffers the trailing
incomplete fragment across reads and flushes the buffer remainder through
the same parser after the body closes.  A read boundary inside a multibyte
character instead trips the per-read strict decode, whose handler emits a
single terminal failure chunk. -/
theorem c2_stream_pipeline_framing
    (st : HubState) (full : String) (args : Json) (tool : ToolInfo) (i : Nat)
    (parse : List Char → Option Json) (envs : List (List Char × Json))
    (reads : List (List Nat)) (texts : List (List Char)) (st1 : HubState)
    (htool : dictGet st.tools full = some tool)
    (hhealth : (dictGet st.health_status tool.server_name).getD false = true)
    (hclient : st.clients.contains tool.server_name = true)
    (hid : dictGet st.request_ids tool.server_name = some i)
    (hst1 : st1 = { st with
      request_ids := dictSet st.request_ids tool.server_name (i + 1) })
    (hdec : List.Forall₂ (fun r t => utf8Decode r = some t) reads texts)
    (henvs : ∀ p ∈ envs, stripChars p.1 = p.1 ∧ p.1 ≠ [] ∧ '\n' ∉ p.1 ∧
        ∃ fs, parse p.1 = some (.obj fs) ∧ hasKey fs "error" = false ∧
          dictGet fs "result" = some p.2)
    (hbody : texts.flatten = (envs.map (fun p => p.1 ++ ['\n'])).flatten) :
    call_tool_stream st full args parse 200 reads =
      some (st1, envs.map (fun p => StreamChunk.success p.2)) := by
  subst hst1
  unfold call_tool_stream
  rw [htool]
  simp only [hhealth, hclient, Bool.not_true, Bool.false_eq_true, if_false,
    ite_false, nextId, hid, ne_eq, not_true_eq_false]
  rw [streamLoopBytes_decoded parse reads texts hdec [] (by simp),
    streamLoop_eq_processWhole parse texts [] (by simp), List.nil_append,
    hbody]
  have hmap : envs.map (fun p => p.1 ++ ['\n']) =
      (envs.map (fun p => p.1)).map (fun l => l ++ ['\n']) := by
    rw [List.map_map]
    rfl
  have hsplit := splitNl_terminated (envs.map (fun p => p.1))
    (by
      intro x hx
      obtain ⟨p, hp, hpe⟩ := List.mem_map.mp hx
      exact hpe ▸ (henvs p hp).2.2.1)
  rw [hmap]
  simp only [processWhole, hsplit, List.dropLast_concat,
    processLines_results parse envs
      (fun p hp => ⟨(henvs p hp).1, (henvs p hp).2.1, (henvs p hp).2.2.2⟩),
    List.getLastD_concat, Bool.false_eq_true, if_false]
  simp [processFlush, stripChars]

/-- Witness for C2 amended: one result envelope split across three
character-boundary byte reads still yields exactly one success chunk. -/
theorem c2_stream_pipeline_framing_witness :
    call_tool_stream stS "s.echo" Json.null parseW 200
      [[0x52, 0x45], [0x53, 0x20, 0x4F], [0x4E, 0x45, 0x0A]] =
      some ({ stS with request_ids := [("s", 5)] },
        [StreamChunk.success (Json.num 1)]) := by
  have h := c2_stream_pipeline_framing stS "s.echo" Json.null toolEcho 4 parseW
    [(lineR1, Json.num 1)]
    [[0x52, 0x45], [0x53, 0x20, 0x4F], [0x4E, 0x45, 0x0A]]
    ["RE".toList, "S O".toList, "NE\n".toList]
    ({ stS with request_ids := [("s", 5)] }) rfl rfl rfl rfl rfl
    (.cons (by decide) (.cons (by decide) (.cons (by decide) .nil)))
    (by
      intro p hp
      rw [List.mem_singleton] at hp
      subst hp
      exact ⟨by decide, by decide, by decide,
        [("result", Json.num 1)], rfl, rfl, rfl⟩)
    (by decide)
  exact h

/-- Counterexample for C6: a complete body line parsing to the JSON array
`[1, 2]` is silently dropped by the stream pipeline — no chunk at all is
emitted, rather than the raw line being forwarded. -/
theorem c6_nonobject_line_dropped_counterexample :
    streamLoop parseArr ["[1, 2]\n".toList] [] = [] ∧
    ([] : List StreamChunk) ≠ [StreamChunk.raw lineArr] := ⟨rfl, by simp⟩

/-- C6 amended: a complete line that fails to parse is forwarded raw, and a
line parsing to a JSON object with neither `error` nor `result` is forwarded
raw, but a line parsing to a non-object JSON value (array, number, string,
boolean or null) is silently dropped: the `isinstance(chunk_data, dict)`
guard has no else branch, so nothing is emitted for it. -/
theorem c6_stream_other_shapes
    (parse : List Char → Option Json) (l : List Char)
    (hnl : '\n' ∉ l) (hs : stripChars l = l) (hne : l ≠ []) :
    (parse l = none → streamLoop parse [l ++ ['\n']] [] = [.raw l]) ∧
    (∀ fields, parse l = some (.obj fields) → hasKey fields "error" = false →
        hasKey fields "result" = false →
        streamLoop parse [l ++ ['\n']] [] = [.raw l]) ∧
    (∀ j, parse l = some j → jIsObj j = false →
        streamLoop parse [l ++ ['\n']] [] = []) := by
  have hie : l.isEmpty = false := by
    cases l with
    | nil => exact absurd rfl hne
    | cons a t => rfl
  have hPW : streamLoop parse [l ++ ['\n']] [] =
      processWhole parse (l ++ ['\n']) := by
    have h := streamLoop_eq_processWhole parse [l ++ ['\n']] [] (by simp)
    simpa using h
  have hsp : splitNl (l ++ ['\n']) = [l, []] := splitNl_line l [] hnl
  refine ⟨?_, ?_, ?_⟩
  · intro hnone
    have hq : processLine parse l = ([.raw l], false) := by
      simp [processLine, hs, hie, hnone]
    rw [hPW]
    simp [processWhole, hsp, processLines, hq, processFlush, stripChars]
  · intro fields hp he hr
    have hq : processLine parse l = ([.raw l], false) := by
      simp [processLine, hs, hie, hp, he, hr]
    rw [hPW]
    simp [processWhole, hsp, processLines, hq, processFlush, stripChars]
  · intro j hp hobj
    have hq : processLine parse l = ([], false) := by
      cases j with
      | obj fields => simp [jIsObj] at hobj
      | null => simp [processLine, hs, hie, hp]
      | bool b => simp [processLine, hs, hie, hp]
      | num n => simp [processLine, hs, hie, hp]
      | str s => simp [processLine, hs, hie, hp]
      | arr elems => simp [processLine, hs, hie, hp]
    rw [hPW]
    simp [processWhole, hsp, processLines, hq, processFlush, stripChars]

/-- Witness for C6 amended: a non-parsing line and an other-shape object
line are forwarded raw; a line parsing to the number 42 is dropped. -/
theorem c6_stream_other_shapes_witness :
    streamLoop parseC6 ["noparse\n".toList] [] =
      [StreamChunk.raw "noparse".toList] ∧
    streamLoop parseC6 ["OTHEROBJ\n".toList] [] =
      [StreamChunk.raw "OTHEROBJ".toList] ∧
    streamLoop parseC6 ["42\n".toList] [] = [] := by
  refine ⟨?_, ?_, ?_⟩
  · have h := (c6_stream_other_shapes parseC6 "noparse".toList
      (by decide) (by decide) (by decide)).1 rfl
    simpa using h
  · have h := (c6_stream_other_shapes parseC6 "OTHEROBJ".toList
      (by decide) (by decide) (by decide)).2.1
      [("jsonrpc", Json.str "2.0")] rfl rfl rfl
    simpa using h
  · have h := (c6_stream_other_shapes parseC6 "42".toList
      (by decide) (by decide) (by decide)).2.2 (Json.num 42) rfl rfl
    simpa using h
